import Mathlib

/-!
# Verification of the federated-aggregations secure-sum core

A shallow embedding of the `federated_aggregations` Python package
(channels/key_store.py, channels/channel_grid.py, channels/channel.py,
paillier/strategy.py, paillier/computations.py), together with theorems
settling the behavioral claims about it.

Modelling conventions:
* Python exceptions are modelled by the `PyErr` inductive; fallible code
  returns `Except PyErr _`.
* TFF placement literals are the closed set used by the repository
  (`tff.CLIENTS`, `tff.SERVER` and the Paillier aggregator placement
  defined in `paillier/placement.py`).
* Tensors are (dtype, shape, row-major data) records; `tf.reshape`
  preserves data.
* The external cryptographic primitives (`tf_encrypted.primitives.paillier`)
  are an abstract `PaillierScheme`; the claims that depend on them assume
  the homomorphism contract as explicit hypotheses.
* Executor handles (`create_value` / `create_call` / `compute`) are
  collapsed: a handle is the value it denotes.  Cardinality bookkeeping is
  kept (a `card : Placement → Nat` map stands for the per-placement child
  executor lists of a strategy).
-/

namespace FedAgg

/-- TFF placement literals used by the repository: `tff.CLIENTS`,
`tff.SERVER`, and the Paillier aggregator placement
(`paillier/placement.py`, named `PAILLIER`, uri `paillier`; referred to as
`paillier_placement.AGGREGATOR` by `paillier/strategy.py`). -/
inductive Placement where
  | CLIENTS
  | SERVER
  | PAILLIER
deriving DecidableEq, Fintype

/-- `PlacementLiteral.uri` of each placement literal (tff uses lowercase
uris; `placement.py` gives the aggregator the uri `paillier`). -/
def Placement.uri : Placement → String
  | .CLIENTS => "clients"
  | .SERVER => "server"
  | .PAILLIER => "paillier"

/-- `PlacementLiteral.default_all_equal`: the `all_equal` a
`tff.FederatedType` defaults to when constructed without an explicit
flag.  `tff.CLIENTS` defaults to false; `tff.SERVER` and the PAILLIER
literal (`placement.py` passes `default_all_equal=True`) default to
true. -/
def Placement.default_all_equal : Placement → Bool
  | .CLIENTS => false
  | .SERVER => true
  | .PAILLIER => true

/-- Tensor dtypes are opaque names (`tf.int32`, ...). -/
abbrev Dtype := String

/-- A `tff.TensorType`: dtype plus static shape. -/
structure TensorTy where
  dtype : Dtype
  shape : List Nat
deriving DecidableEq

/-- Number of elements of a shape (`TensorShape.num_elements`). -/
def TensorTy.numel (ty : TensorTy) : Nat := ty.shape.prod

/-- A concrete tensor: its type and row-major data. -/
structure Tensor where
  ty : TensorTy
  data : List Int
deriving DecidableEq

/-- `tf.reshape(tensor, output_shape)`: same backing data, new shape
(used by `make_reshape_tensor` in paillier/computations.py). -/
def reshape_tensor (t : Tensor) (output_shape : List Nat) : Tensor :=
  ⟨⟨t.ty.dtype, output_shape⟩, t.data⟩

/-- The fragment of TFF's type system the repository inspects:
tensor types, (named) tuple types and federated types. -/
inductive TffType where
  | tensorT (ty : TensorTy)
  | tupleT (elems : List TffType)
  | federatedT (member : TffType) (placement : Placement) (allEqual : Bool)

mutual

/-- Boolean equality on `TffType` (needed because the nested `List` blocks
the derive handler). -/
def TffType.beq : TffType → TffType → Bool
  | .tensorT a, .tensorT b => a == b
  | .tupleT as, .tupleT bs => TffType.beqList as bs
  | .federatedT m p ae, .federatedT n q be =>
      TffType.beq m n && p == q && ae == be
  | _, _ => false

/-- Boolean equality on lists of `TffType`. -/
def TffType.beqList : List TffType → List TffType → Bool
  | [], [] => true
  | a :: as, b :: bs => TffType.beq a b && TffType.beqList as bs
  | _, _ => false

end

mutual

theorem TffType.beq_iff : ∀ a b : TffType, TffType.beq a b = true ↔ a = b
  | .tensorT a, .tensorT b => by simp [TffType.beq]
  | .tensorT _, .tupleT _ => by simp [TffType.beq]
  | .tensorT _, .federatedT _ _ _ => by simp [TffType.beq]
  | .tupleT _, .tensorT _ => by simp [TffType.beq]
  | .tupleT as, .tupleT bs => by
      simp [TffType.beq, TffType.beqList_iff as bs]
  | .tupleT _, .federatedT _ _ _ => by simp [TffType.beq]
  | .federatedT _ _ _, .tensorT _ => by simp [TffType.beq]
  | .federatedT _ _ _, .tupleT _ => by simp [TffType.beq]
  | .federatedT m p ae, .federatedT n q be => by
      simp [TffType.beq, TffType.beq_iff m n, and_assoc]

theorem TffType.beqList_iff :
    ∀ as bs : List TffType, TffType.beqList as bs = true ↔ as = bs
  | [], [] => by simp [TffType.beqList]
  | [], _ :: _ => by simp [TffType.beqList]
  | _ :: _, [] => by simp [TffType.beqList]
  | a :: as, b :: bs => by
      simp [TffType.beqList, TffType.beq_iff a b, TffType.beqList_iff as bs]

end

instance : DecidableEq TffType := fun a b =>
  decidable_of_iff _ (TffType.beq_iff a b)

/-- Python exceptions raised by the embedded code:
`py_typecheck.check_type` raises `TypeError`, `py_typecheck.check_len`
and explicit `raise ValueError` raise `ValueError`, a bare `assert`
raises `AssertionError`, out-of-range indexing raises `IndexError`, and
attribute access on `None` raises `AttributeError`. -/
inductive PyErr where
  | typeError (msg : String)
  | valueError (msg : String)
  | assertionError
  | indexError
  | attributeError (msg : String)
deriving DecidableEq

/-- `py_typecheck.check_len(target, length)`. -/
def check_len (n expected : Nat) : Except PyErr Unit :=
  if n = expected then .ok () else
    .error (.valueError "Expected an object with a given length.")

/-- Pointwise integer addition of two equally-shaped tensors; the result
keeps the left operand's type record (model of the elementwise sum the
Paillier addition performs on plaintexts). -/
def tensorAdd (t1 t2 : Tensor) : Tensor :=
  ⟨t1.ty, List.zipWith (· + ·) t1.data t2.data⟩

/-- Elementwise sum of a nonempty list of tensors (left fold). -/
def elementwiseSum : List Tensor → Tensor
  | [] => ⟨⟨"", []⟩, []⟩
  | t :: rest => rest.foldl tensorAdd t

end FedAgg

namespace FedAgg

/-! ## KeyStore (channels/key_store.py) -/

/-- A key value cached by the `KeyStore`: the model of a
`FederatedResolvingStrategyValue` holding key material — its
per-participant members plus its TFF type signature. -/
structure FedKey where
  members : List Tensor
  typeSig : TffType
deriving DecidableEq

/-- One slot of the key store: the `{'pk': ..., 'sk': ...}` dict produced
by `KeyStore._default_store` (both entries start as Python `None`). -/
structure KeyEntry where
  pk : Option FedKey
  sk : Option FedKey
deriving DecidableEq

/-- The default slot `{'pk': None, 'sk': None}`. -/
def KeyEntry.default : KeyEntry := ⟨none, none⟩

/-- `KeyStore._key_store`: a `collections.defaultdict(self._default_store)`
keyed by placement name.  Since the placement literals are a closed set and
a `defaultdict` read of an absent name observably yields the default slot,
the store is one slot per placement, initialized to the default. -/
structure KeyStore where
  clients : KeyEntry
  server : KeyEntry
  paillier : KeyEntry
deriving DecidableEq

/-- A freshly constructed `KeyStore()` (every slot is the default). -/
def KeyStore.init : KeyStore := ⟨.default, .default, .default⟩

/-- `KeyStore._get_keys(key_owner)`: type-checks the owner is a placement
literal (always true here by typing) and reads
`self._key_store[key_owner.name]` — a `defaultdict` read, so an absent
owner yields the default slot rather than an error. -/
def KeyStore.get_keys (ks : KeyStore) (key_owner : Placement) : KeyEntry :=
  match key_owner with
  | .CLIENTS => ks.clients
  | .SERVER => ks.server
  | .PAILLIER => ks.paillier

/-- Replace one owner's slot (helper for the mutations below). -/
def KeyStore.set_keys (ks : KeyStore) (key_owner : Placement) (e : KeyEntry) :
    KeyStore :=
  match key_owner with
  | .CLIENTS => { ks with clients := e }
  | .SERVER => { ks with server := e }
  | .PAILLIER => { ks with paillier := e }

/-- `KeyStore.get_public_key(key_owner)` — `self._get_keys(key_owner)['pk']`.
The result is `none` (Python `None`) when never populated. -/
def KeyStore.get_public_key (ks : KeyStore) (key_owner : Placement) :
    Option FedKey :=
  (ks.get_keys key_owner).pk

/-- `KeyStore.get_secret_key(key_owner)`. -/
def KeyStore.get_secret_key (ks : KeyStore) (key_owner : Placement) :
    Option FedKey :=
  (ks.get_keys key_owner).sk

/-- `KeyStore.get_key_pair(key_owner)` — the `(pk, sk)` pair of the
owner's slot. -/
def KeyStore.get_key_pair (ks : KeyStore) (key_owner : Placement) :
    Option FedKey × Option FedKey :=
  ((ks.get_keys key_owner).pk, (ks.get_keys key_owner).sk)

/-- `KeyStore._check_key_type(key)`: the key must be a
`FederatedResolvingStrategyValue` (true by typing here) whose
`type_signature` is a `NamedTupleType` or a `FederatedType`. -/
def KeyStore.check_key_type (key : FedKey) : Except PyErr Unit :=
  match key.typeSig with
  | .tupleT _ => .ok ()
  | .federatedT _ _ _ => .ok ()
  | .tensorT _ => .error (.typeError "Expected NamedTupleType or FederatedType.")

/-- `KeyStore.update_keys(key_owner, public_key=None, secret_key=None)`:
each supplied key is type-checked and written into the owner's slot; an
absent argument leaves the corresponding field untouched. -/
def KeyStore.update_keys (ks : KeyStore) (key_owner : Placement)
    (public_key : Option FedKey) (secret_key : Option FedKey) :
    Except PyErr KeyStore := do
  let cache := ks.get_keys key_owner
  let cache ←
    match public_key with
    | none => pure cache
    | some pk => do
        KeyStore.check_key_type pk
        pure { cache with pk := some pk }
  let cache ←
    match secret_key with
    | none => pure cache
    | some sk => do
        KeyStore.check_key_type sk
        pure { cache with sk := some sk }
  .ok (ks.set_keys key_owner cache)

end FedAgg

namespace FedAgg

/-! ## Channel key exchange (channels/channel.py, class EasyBoxChannel) -/

/-- Result of `FederatedResolvingStrategyValue.compute()` on a
federated-typed key value (the only shape `_share_public_key` feeds it):
an `all_equal` value computes to its single member, a non-`all_equal`
value computes to the list of per-participant members. -/
inductive ComputedVal where
  | single (t : Tensor)
  | list (ts : List Tensor)
deriving DecidableEq

/-- `public_key.compute()` for a stored key value.  Only federated-typed
keys are modelled (the only ones the setup flow ever stores before
sharing); computing an `all_equal` value with no member mirrors the
out-of-range read TFF would perform. -/
def FedKey.compute (k : FedKey) : Except PyErr ComputedVal :=
  match k.typeSig with
  | .federatedT _ _ true =>
      match k.members.head? with
      | some t => .ok (.single t)
      | none => .error .indexError
  | .federatedT _ _ false => .ok (.list k.members)
  | _ => .error (.typeError "expected a federated-typed key value")

/-- `member` attribute of a federated type signature
(`public_key.type_signature.member`). -/
def TffType.member : TffType → Except PyErr TffType
  | .federatedT m _ _ => .ok m
  | _ => .error (.attributeError "member")

/-- `EasyBoxChannel._share_public_key(key_owner, key_receiver)`:
reads the owner's public key from the key store, materializes it, and
re-places it at the receiver.  The two supported shapes: a list of n keys
goes to a singleton receiver as an n-tuple; a single key is replicated to
every receiver executor with `all_equal=True`.  A list of keys with a
non-singleton receiver fails the `py_typecheck.check_len(children, 1)`
length check (the shape the spec's error taxonomy names
`UnsupportedKeyTopology`), before any store update. -/
def share_public_key (card : Placement → Nat) (ks : KeyStore)
    (key_owner key_receiver : Placement) : Except PyErr KeyStore := do
  match ks.get_public_key key_owner with
  | none => .error (.attributeError "NoneType object has no attribute compute")
  | some public_key => do
    let val ← public_key.compute
    let key_type ← public_key.typeSig.member
    match val with
    | .list vs => do
        -- sharing n keys with 1 executor
        check_len (card key_receiver) 1
        -- `tff.FederatedType(infer_type(val), key_receiver)` omits the
        -- all_equal flag, so it takes the receiver's default_all_equal
        let vals_type : TffType :=
          .federatedT (.tupleT (vs.map (fun t => .tensorT t.ty))) key_receiver
            key_receiver.default_all_equal
        let public_key_rcv : FedKey := ⟨vs, vals_type⟩
        ks.update_keys key_owner (some public_key_rcv) none
    | .single v => do
        -- sharing 1 key with n executors
        let public_key_rcv : FedKey :=
          ⟨List.replicate (card key_receiver) v,
            .federatedT key_type key_receiver true⟩
        ks.update_keys key_owner (some public_key_rcv) none

/-- `EasyBoxChannel._generate_keys(key_owner)`: one fresh sodium keypair
per child executor of the owner (`keygen` is the external
`sodium_comp.make_keygen` kernel, modelled by the oracle `gen` giving the
keypair produced on participant `i` of a placement); the resulting
federated values are `all_equal` exactly when the owner is a non-CLIENTS
singleton, and are written into the key store. -/
def generate_keys (card : Placement → Nat)
    (gen : Placement → Nat → Tensor × Tensor) (ks : KeyStore)
    (key_owner : Placement) : Except PyErr KeyStore := do
  let pairs := (List.range (card key_owner)).map (gen key_owner)
  let pk_vals := pairs.map Prod.fst
  let sk_vals := pairs.map Prod.snd
  match pk_vals.head?, sk_vals.head? with
  | some pk0, some sk0 => do
      -- pk_type / sk_type are read off the first generated key
      let val_all_equal :=
        card key_owner == 1 && key_owner != Placement.CLIENTS
      let pk_fed_val : FedKey :=
        ⟨pk_vals, .federatedT (.tensorT pk0.ty) key_owner val_all_equal⟩
      let sk_fed_val : FedKey :=
        ⟨sk_vals, .federatedT (.tensorT sk0.ty) key_owner val_all_equal⟩
      ks.update_keys key_owner (some pk_fed_val) (some sk_fed_val)
  | _, _ => .error .indexError  -- pk_vals[0] with no child executors

/-! ## Channels and the ChannelGrid (channels/channel_grid.py) -/

/-- The two channel variants registered by the repository's factories. -/
inductive ChannelKind where
  | plaintext
  | easybox
deriving DecidableEq

/-- Mutable state of an `EasyBoxChannel` (a `PlaintextChannel` has no
state beyond its placements). -/
structure EasyBoxState where
  placements : Placement × Placement
  key_references : KeyStore
  requires_setup : Bool
deriving DecidableEq

/-- A live channel object. -/
inductive ChannelObj where
  | plaintextCh (placements : Placement × Placement)
  | easyBoxCh (st : EasyBoxState)
deriving DecidableEq

/-- A `ChannelGrid` entry: a still-uninstantiated channel factory (the
class object registered at construction) or the live channel that
replaces it during `setup_channels`. -/
inductive GridEntry where
  | factory (kind : ChannelKind)
  | live (ch : ChannelObj)
deriving DecidableEq

/-- `ChannelGrid`: dict from placement pairs to entries, plus the
one-shot `requires_setup` flag. -/
structure ChannelGrid where
  channel_dict : List ((Placement × Placement) × GridEntry)
  requires_setup : Bool
deriving DecidableEq

/-- The lexicographic order of the three placement uris, tabulated
(`"clients" < "paillier" < "server"`). -/
def Placement.uriRank : Placement → Nat
  | .CLIENTS => 0
  | .PAILLIER => 1
  | .SERVER => 2

/-- `sorted(placement_pair, key=lambda p: p.uri)` for a 2-tuple: swap
exactly when the second uri orders strictly before the first. -/
def sortPair (pr : Placement × Placement) : Placement × Placement :=
  if pr.2.uriRank < pr.1.uriRank then (pr.2, pr.1) else pr

/-- `channel_factory(strategy, *pair)`: instantiate a channel class. -/
def instantiateChannel (kind : ChannelKind) (pair : Placement × Placement) :
    ChannelObj :=
  match kind with
  | .plaintext => .plaintextCh pair
  | .easybox => .easyBoxCh ⟨pair, KeyStore.init, true⟩

/-- `Channel.setup()`.  `PlaintextChannel.setup` is a no-op;
`EasyBoxChannel.setup` generates keys at both placements and shares the
public keys in both directions, guarded by the per-channel
`_requires_setup` flag. -/
def channel_setup (card : Placement → Nat)
    (gen : Placement → Nat → Tensor × Tensor) :
    ChannelObj → Except PyErr ChannelObj
  | .plaintextCh pr => .ok (.plaintextCh pr)
  | .easyBoxCh st =>
    if st.requires_setup then do
      let (p0, p1) := st.placements
      let ks ← generate_keys card gen st.key_references p0
      let ks ← generate_keys card gen ks p1
      let ks ← share_public_key card ks p0 p1
      let ks ← share_public_key card ks p1 p0
      .ok (.easyBoxCh ⟨st.placements, ks, false⟩)
    else .ok (.easyBoxCh st)

/-- `ChannelGrid.setup_channels(strategy)`: when the one-shot flag is
still set, instantiate every registered factory on the uri-sorted
placement pair, run each channel's `setup()`, store the live channels
under the sorted pairs, and clear the flag; otherwise do nothing.
(A live entry encountered while the flag is set would be Python calling
a channel instance as a factory — a `TypeError`.) -/
def ChannelGrid.setup_channels (g : ChannelGrid) (card : Placement → Nat)
    (gen : Placement → Nat → Tensor × Tensor) : Except PyErr ChannelGrid :=
  if g.requires_setup then do
    let dict ← g.channel_dict.mapM (fun e => do
      let pair := sortPair e.1
      match e.2 with
      | .factory kind => do
          let ch ← channel_setup card gen (instantiateChannel kind pair)
          pure (pair, GridEntry.live ch)
      | .live _ => .error (.typeError "Channel object is not callable"))
    .ok ⟨dict, false⟩
  else .ok g

/-- `ChannelGrid.__getitem__(placements)`: type/arity checks are
guaranteed by typing here; the query pair is uri-sorted and looked up
with `dict.get`, yielding `None` when absent. -/
def ChannelGrid.getItem (g : ChannelGrid) (placements : Placement × Placement) :
    Option GridEntry :=
  (g.channel_dict.find? (fun e => e.1 = sortPair placements)).map (·.2)

end FedAgg

namespace FedAgg

/-! ## Paillier primitives (external `tf_encrypted.primitives.paillier`)
and the generated kernels (paillier/computations.py) -/

/-- The external Paillier primitive kernels, abstract over the encryption
key type `EK`, decryption key type `DK` and ciphertext type `C`.
`decrypt` takes the `export_dtype` that `paillier.decrypt` exports to.
Raw import/export of keys and ciphertexts for transit
(`.export(dtype=...)` / reconstruction) is value-preserving and is
collapsed in the model. -/
structure PaillierScheme (EK DK C : Type) where
  encrypt : EK → Tensor → C
  add : EK → C → C → C
  refresh : EK → C → C
  decrypt : DK → EK → C → Dtype → Tensor

/-- The homomorphism contract the spec assumes of the primitives, for one
keypair `(ek, dk)`: decryption inverts encryption (exporting at the
plaintext's dtype), homomorphic addition decrypts to the elementwise sum,
and a refresh does not change the plaintext. -/
structure SchemeContract {EK DK C : Type} (S : PaillierScheme EK DK C)
    (ek : EK) (dk : DK) : Prop where
  decrypt_encrypt : ∀ t : Tensor,
    S.decrypt dk ek (S.encrypt ek t) t.ty.dtype = t
  decrypt_add : ∀ (c1 c2 : C) (d : Dtype),
    S.decrypt dk ek (S.add ek c1 c2) d =
      tensorAdd (S.decrypt dk ek c1 d) (S.decrypt dk ek c2 d)
  decrypt_refresh : ∀ (c : C) (d : Dtype),
    S.decrypt dk ek (S.refresh ek c) d = S.decrypt dk ek c d

/-- The balanced binary recursive combiner `adder` from
`make_sequence_sum` (paillier/computations.py): a singleton list is its
own sum; otherwise split at `len(xs) // 2` and combine the two halves
with `paillier.add(..., do_refresh=False)`.  The `assert len(xs) >= 1`
makes the empty list an error (`none`). -/
def adder {EK DK C : Type} (S : PaillierScheme EK DK C) (ek : EK)
    (xs : List C) : Option C :=
  if xs.length = 0 then none
  else if xs.length = 1 then xs.head?
  else
    let split := xs.length / 2
    match adder S ek (xs.take split), adder S ek (xs.drop split) with
    | some l, some r => some (S.add ek l r)
    | _, _ => none
termination_by xs.length
decreasing_by
  · simp only [List.length_take]; omega
  · simp only [List.length_drop]; omega

/-- `_sequence_sum(encryption_key_raw, summands_raw)` from
`make_sequence_sum`: reconstruct the ciphertexts, reduce them with the
balanced `adder`, re-randomize the final accumulator once
(`paillier.refresh`) and export it. -/
def sequence_sum {EK DK C : Type} (S : PaillierScheme EK DK C) (ek : EK)
    (summands : List C) : Except PyErr C :=
  match adder S ek summands with
  | some result => .ok (S.refresh ek result)
  | none => .error .assertionError

/-! ## PaillierAggregatingStrategy (paillier/strategy.py) -/

/-- `PaillierAggregatingStrategy.__init__` stores `target_executors`
(placement → list of child executors; TFF wraps a bare executor into a
singleton list).  The model keeps the cardinalities: `none` when the
placement is not a key of the map. -/
def TargetExecutors := Placement → Option Nat

/-- `PaillierAggregatingStrategy._check_for_paillier_placement`: the
Paillier aggregator placement must be a key of `target_executors` and
must hold exactly one child executor. -/
def check_for_paillier_placement (te : TargetExecutors) :
    Except PyErr Unit :=
  match te Placement.PAILLIER with
  | none => .error (.valueError "Missing Paillier aggregator placement.")
  | some paillier_cardinality =>
      if paillier_cardinality ≠ 1 then
        .error (.valueError
          "Unsupported cardinality for Paillier aggregator placement.")
      else .ok ()

/-- The strategy state produced by a successful
`PaillierAggregatingStrategy.__init__`. -/
structure PaillierAggregatingStrategy where
  target_executors : TargetExecutors
  requires_setup : Bool

/-- `PaillierAggregatingStrategy.__init__(executor, target_executors,
channel_grid, key_inputter)`: after the parent initializer, the Paillier
placement check runs; only when it passes is an instance (with the lazy
`_requires_setup = True` flag) produced. -/
def strategy_init (te : TargetExecutors) :
    Except PyErr PaillierAggregatingStrategy := do
  check_for_paillier_placement te
  .ok ⟨te, true⟩

/-- A federated tensor value as tracked by the strategy: per-participant
members, the placement tag and the `all_equal` flag of its federated
type. -/
structure FedTensor where
  members : List Tensor
  placement : Placement
  allEqual : Bool
deriving DecidableEq

/-- One element of the secure-sum argument's internal representation:
the federated value element (one tensor per client) or an unplaced
element (the bitwidth). -/
inductive ArgElem where
  | fed (members : List Tensor)
  | plain (t : Tensor)
deriving DecidableEq

/-- The argument handed to `compute_federated_secure_sum`: a strategy
value with its TFF type signature and its internal representation. -/
structure SecureSumArg where
  typeSig : TffType
  internal : List ArgElem
deriving DecidableEq

/-- `FederatedResolvingStrategy._check_arg_is_anonymous_tuple`. -/
def check_arg_is_anonymous_tuple (arg : SecureSumArg) : Except PyErr Unit :=
  match arg.typeSig with
  | .tupleT _ => .ok ()
  | _ => .error (.typeError "Expected an anonymous tuple.")

/-- `arg.type_signature[index]` on a tuple type (`IndexError` when out of
range, `TypeError` on a non-tuple — the flow checks tuple-ness first). -/
def type_sig_elem (t : TffType) (index : Nat) : Except PyErr TffType :=
  match t with
  | .tupleT elems =>
      match elems.get? index with
      | some e => .ok e
      | none => .error .indexError
  | _ => .error (.typeError "Expected a NamedTupleType.")

/-- `type_analysis.check_federated_type(type_spec, placement=...)`
(only the placement is constrained at this call site). -/
def check_federated_type (t : TffType) (placement : Placement) :
    Except PyErr Unit :=
  match t with
  | .federatedT _ p _ =>
      if p = placement then .ok ()
      else .error (.typeError "Expected a federated type placed at CLIENTS.")
  | _ => .error (.typeError "Expected a federated type.")

/-- `py_typecheck.check_type(value_type.member, tff.TensorType)` plus the
member reads (`dtype`, `shape`) that follow it. -/
def check_member_tensor (t : TffType) : Except PyErr TensorTy :=
  match t with
  | .federatedT (.tensorT ty) _ _ => .ok ty
  | .federatedT _ _ _ => .error (.typeError "Expected a TensorType member.")
  | _ => .error (.attributeError "member")

/-- `self._executor.create_selection(arg, index=0)`: the federated value
element of the argument tuple, carrying its member list and the
`all_equal` flag of `arg.type_signature[0]`. -/
def select_value (arg : SecureSumArg) : Except PyErr FedTensor :=
  match arg.internal.head?, arg.typeSig with
  | some (.fed members), .tupleT (.federatedT _ p ae :: _) =>
      .ok ⟨members, p, ae⟩
  | _, _ => .error (.typeError "selection on a non-federated element")

/-- `PaillierAggregatingStrategy._compute_reshape_on_tensor(tensor,
output_shape)`: checks one handle per child executor of the tensor's
placement, then applies the cached `make_reshape_tensor` kernel on each;
the output keeps dtype, placement and `all_equal`, with the new shape. -/
def compute_reshape_on_tensor (card : Placement → Nat) (v : FedTensor)
    (output_shape : List Nat) : Except PyErr FedTensor := do
  check_len v.members.length (card v.placement)
  .ok ⟨v.members.map (reshape_tensor · output_shape), v.placement, v.allEqual⟩

/-- `PaillierAggregatingStrategy._compute_paillier_encryption(
client_encryption_keys, clients_value)`: after both per-client length
checks, every client calls the `make_encryptor` kernel on its own
`(encryption key, value)` pair. -/
def compute_paillier_encryption {EK DK C : Type} (S : PaillierScheme EK DK C)
    (card : Placement → Nat) (client_encryption_keys : List EK)
    (clients_value : FedTensor) : Except PyErr (List C) := do
  let num_clients := card Placement.CLIENTS
  check_len client_encryption_keys.length num_clients
  check_len clients_value.members.length num_clients
  .ok (List.zipWith S.encrypt client_encryption_keys clients_value.members)

/-- `PaillierAggregatingStrategy._compute_paillier_sum(encryption_key,
values)`: the single Paillier child executor runs the
`make_sequence_sum` kernel over the moved ciphertexts; the result is an
`all_equal` value at the aggregator placement.  (`_get_child_executors(
AGGREGATOR, index=0)` indexes the child list, an `IndexError` when
empty.) -/
def compute_paillier_sum {EK DK C : Type} (S : PaillierScheme EK DK C)
    (card : Placement → Nat) (encryption_key : EK) (values : List C) :
    Except PyErr C := do
  if card Placement.PAILLIER = 0 then .error .indexError
  else sequence_sum S encryption_key values

/-- `PaillierAggregatingStrategy._compute_paillier_decryption(
decryption_key, encryption_key, value, export_dtype)`: the single server
child executor runs the cached `make_decryptor` kernel; the result is an
`all_equal` singleton value at `tff.SERVER`. -/
def compute_paillier_decryption {EK DK C : Type} (S : PaillierScheme EK DK C)
    (card : Placement → Nat) (decryption_key : DK) (encryption_key : EK)
    (value : C) (export_dtype : Dtype) : Except PyErr FedTensor := do
  if card Placement.SERVER = 0 then .error .indexError
  else
    .ok ⟨[S.decrypt decryption_key encryption_key value export_dtype],
      Placement.SERVER, true⟩

/-- The validation prefix of `compute_federated_secure_sum` (strategy.py
lines 79-83): the argument must be an anonymous tuple whose internal
representation has two elements, whose first type element is a federated
type placed at `tff.CLIENTS` with a `TensorType` member; on success the
member tensor type is returned for the dtype/shape stashes. -/
def secure_sum_validate (arg : SecureSumArg) : Except PyErr TensorTy := do
  check_arg_is_anonymous_tuple arg
  check_len arg.internal.length 2
  let value_type ← type_sig_elem arg.typeSig 0
  check_federated_type value_type Placement.CLIENTS
  check_member_tensor value_type

/-- `PaillierAggregatingStrategy.compute_federated_secure_sum(arg)`.

The setup phase (`_paillier_setup`) is inlined through its outcome: the
coordinator's keypair `(ek, dk)` comes from the `key_inputter`; the
encryption key is broadcast over the channel grid to every client
(`all_equal`, one copy per client child executor) and to the aggregator,
while the decryption key stays at `tff.SERVER`.

The two `_move` steps (channel `transfer` over the `PlaintextChannel`s
the Paillier factory registers) re-bind the computed ciphertexts on the
receiving placement's executors and are value-preserving, so they are
collapsed; placement bookkeeping is carried by the step functions. -/
def compute_federated_secure_sum {EK DK C : Type} (S : PaillierScheme EK DK C)
    (ek : EK) (dk : DK) (card : Placement → Nat) (arg : SecureSumArg) :
    Except PyErr FedTensor := do
  let member ← secure_sum_validate arg
  -- Stash input dtype for later
  let input_tensor_dtype := member.dtype
  -- Paillier setup phase (outcome of `_paillier_setup`)
  let encryption_key_clients := List.replicate (card Placement.CLIENTS) ek
  let encryption_key_paillier := ek
  let decryption_key := dk
  -- Stash input shape, and reshape input tensor to matrix-form
  let input_tensor_shape := member.shape
  let clients_value ← select_value arg
  let clients_value ←
    if input_tensor_shape.length ≠ 2 then
      compute_reshape_on_tensor card clients_value
        [1, input_tensor_shape.prod]
    else pure clients_value
  -- Encrypt summands on tff.CLIENTS
  let encrypted_values ←
    compute_paillier_encryption S card encryption_key_clients clients_value
  -- Perform Paillier sum on ciphertexts (after the move to the aggregator)
  let encrypted_sum ←
    compute_paillier_sum S card encryption_key_paillier encrypted_values
  -- Move to server and decrypt the result
  let decrypted_result ←
    compute_paillier_decryption S card decryption_key ek encrypted_sum
      input_tensor_dtype
  compute_reshape_on_tensor card decrypted_result input_tensor_shape

end FedAgg

namespace FedAgg

/-! ## Algebraic facts about elementwise sums and the balanced combiner -/

theorem zipWith_add_assoc : ∀ x y z : List Int,
    List.zipWith (· + ·) (List.zipWith (· + ·) x y) z =
      List.zipWith (· + ·) x (List.zipWith (· + ·) y z)
  | [], _, _ => rfl
  | _ :: _, [], _ => rfl
  | _ :: _, _ :: _, [] => rfl
  | a :: x, b :: y, c :: z => by
      simp only [List.zipWith_cons_cons, zipWith_add_assoc x y z,
        Int.add_assoc]

theorem tensorAdd_assoc (a b c : Tensor) :
    tensorAdd (tensorAdd a b) c = tensorAdd a (tensorAdd b c) := by
  simp only [tensorAdd, zipWith_add_assoc]

theorem foldl_tensorAdd_assoc : ∀ (l : List Tensor) (a b : Tensor),
    l.foldl tensorAdd (tensorAdd a b) = tensorAdd a (l.foldl tensorAdd b)
  | [], _, _ => rfl
  | t :: l, a, b => by
      simp only [List.foldl_cons, tensorAdd_assoc,
        foldl_tensorAdd_assoc l a (tensorAdd b t)]

theorem elementwiseSum_cons (t : Tensor) (l : List Tensor) :
    elementwiseSum (t :: l) = l.foldl tensorAdd t := rfl

theorem foldl_tensorAdd_eq_add_elementwiseSum (a : Tensor) :
    ∀ ys : List Tensor, ys ≠ [] →
      ys.foldl tensorAdd a = tensorAdd a (elementwiseSum ys)
  | [], h => absurd rfl h
  | y :: ys, _ => by
      simp only [List.foldl_cons, elementwiseSum_cons]
      exact foldl_tensorAdd_assoc ys a y

theorem elementwiseSum_append (xs ys : List Tensor) (hx : xs ≠ [])
    (hy : ys ≠ []) :
    elementwiseSum (xs ++ ys) =
      tensorAdd (elementwiseSum xs) (elementwiseSum ys) := by
  match xs with
  | [] => exact absurd rfl hx
  | x :: xs =>
      simp only [List.cons_append, elementwiseSum_cons, List.foldl_append]
      exact foldl_tensorAdd_eq_add_elementwiseSum _ ys hy

theorem elementwiseSum_ty (t : Tensor) (l : List Tensor) :
    (elementwiseSum (t :: l)).ty = t.ty := by
  rw [elementwiseSum_cons]
  induction l generalizing t with
  | nil => rfl
  | cons u l ih => simpa only [List.foldl_cons] using ih (tensorAdd t u)

theorem foldl_tensorAdd_data : ∀ (l : List Tensor) (a : Tensor),
    (l.foldl tensorAdd a).data =
      (l.map Tensor.data).foldl (List.zipWith (· + ·)) a.data
  | [], _ => rfl
  | t :: l, a => by
      simp only [List.foldl_cons, List.map_cons,
        foldl_tensorAdd_data l (tensorAdd a t)]
      rfl

theorem elementwiseSum_data_map_reshape (s : List Nat) (l : List Tensor) :
    (elementwiseSum (l.map (reshape_tensor · s))).data =
      (elementwiseSum l).data := by
  match l with
  | [] => rfl
  | t :: l =>
      simp only [List.map_cons, elementwiseSum_cons, foldl_tensorAdd_data,
        List.map_map]
      have : Tensor.data ∘ (reshape_tensor · s) = Tensor.data := rfl
      rw [this]
      rfl

theorem zipWith_replicate_eq_map {α β γ : Type} (f : α → β → γ) (a : α) :
    ∀ l : List β, List.zipWith f (List.replicate l.length a) l = l.map (f a)
  | [] => rfl
  | b :: l => by
      simp only [List.length_cons, List.replicate_succ, List.zipWith_cons_cons,
        List.map_cons, zipWith_replicate_eq_map f a l]

end FedAgg

namespace FedAgg

/-- Bounded-length induction form of the balanced-combiner correctness:
under the homomorphism contract, `adder` succeeds on every nonempty
ciphertext list and its result decrypts to the elementwise sum of the
decryptions of the inputs. -/
theorem adder_spec_bounded {EK DK C : Type} {S : PaillierScheme EK DK C}
    {ek : EK} {dk : DK} (hc : SchemeContract S ek dk) (d : Dtype) :
    ∀ (n : Nat) (xs : List C), xs.length ≤ n → xs ≠ [] →
      ∃ r, adder S ek xs = some r ∧
        S.decrypt dk ek r d =
          elementwiseSum (xs.map (fun c => S.decrypt dk ek c d)) := by
  intro n
  induction n with
  | zero =>
      intro xs hlen hne
      cases xs with
      | nil => exact absurd rfl hne
      | cons a l => simp at hlen
  | succ n ih =>
      intro xs hlen hne
      have h0 : ¬xs.length = 0 := fun h => hne (List.length_eq_zero.mp h)
      by_cases h1 : xs.length = 1
      · obtain ⟨x, rfl⟩ := List.length_eq_one.mp h1
        refine ⟨x, ?_, ?_⟩
        · rw [adder]; simp
        · simp [elementwiseSum_cons]
      · have h2 : 2 ≤ xs.length := by omega
        have hsplit1 : 1 ≤ xs.length / 2 := by omega
        have hsplitlt : xs.length / 2 < xs.length := by omega
        have htlen : (xs.take (xs.length / 2)).length = xs.length / 2 := by
          simp only [List.length_take]; omega
        have hdlen : (xs.drop (xs.length / 2)).length =
            xs.length - xs.length / 2 := by
          simp only [List.length_drop]
        have htne : xs.take (xs.length / 2) ≠ [] := by
          intro h; rw [h] at htlen; simp at htlen; omega
        have hdne : xs.drop (xs.length / 2) ≠ [] := by
          intro h; rw [h] at hdlen; simp at hdlen; omega
        obtain ⟨l, hlsome, hld⟩ :=
          ih (xs.take (xs.length / 2)) (by omega) htne
        obtain ⟨r, hrsome, hrd⟩ :=
          ih (xs.drop (xs.length / 2)) (by omega) hdne
        refine ⟨S.add ek l r, ?_, ?_⟩
        · rw [adder]
          simp only [if_neg h0, if_neg h1, hlsome, hrsome]
        · rw [hc.decrypt_add, hld, hrd, ← elementwiseSum_append _ _
            (by simpa using htne) (by simpa using hdne),
            ← List.map_append, List.take_append_drop]

/-- Balanced-combiner correctness (final form). -/
theorem adder_spec {EK DK C : Type} {S : PaillierScheme EK DK C}
    {ek : EK} {dk : DK} (hc : SchemeContract S ek dk) (d : Dtype)
    (xs : List C) (hne : xs ≠ []) :
    ∃ r, adder S ek xs = some r ∧
      S.decrypt dk ek r d =
        elementwiseSum (xs.map (fun c => S.decrypt dk ek c d)) :=
  adder_spec_bounded hc d xs.length xs le_rfl hne

/-- A linear left fold of homomorphic additions decrypts to the same
elementwise sum. -/
theorem foldl_add_decrypt {EK DK C : Type} {S : PaillierScheme EK DK C}
    {ek : EK} {dk : DK} (hc : SchemeContract S ek dk) (d : Dtype) :
    ∀ (l : List C) (a : C),
      S.decrypt dk ek (l.foldl (S.add ek) a) d =
        (l.map (fun c => S.decrypt dk ek c d)).foldl tensorAdd
          (S.decrypt dk ek a d)
  | [], _ => rfl
  | c :: l, a => by
      simp only [List.foldl_cons, List.map_cons,
        foldl_add_decrypt hc d l (S.add ek a c), hc.decrypt_add]

end FedAgg

namespace FedAgg

/-! ## Spec-side predicates and concrete fixtures -/

/-- The spec's validation condition on the secure-sum argument (from the
claim's wording): a two-element tuple whose value component is a
federated value placed at the data-holder placement with a tensor member
type. -/
def secure_sum_arg_ok (arg : SecureSumArg) : Bool :=
  match arg.typeSig with
  | .tupleT (.federatedT (.tensorT _) p _ :: _) =>
      arg.internal.length == 2 && p == Placement.CLIENTS
  | _ => false

/-- The key type check of `KeyStore._check_key_type` as a predicate: the
type signature is a named-tuple or federated type. -/
def key_type_ok (t : TffType) : Bool :=
  match t with
  | .tupleT _ => true
  | .federatedT _ _ _ => true
  | .tensorT _ => false

/-- A degenerate scheme instance (ciphertext = plaintext) used to
instantiate the contract-parameterized theorems on concrete inputs. -/
def idScheme : PaillierScheme Unit Unit Tensor :=
  ⟨fun _ t => t, fun _ => tensorAdd, fun _ c => c, fun _ _ c _ => c⟩

/-- Concrete cardinalities: two clients, one server child, one Paillier
child (the factory's supported topology). -/
def cardW : Placement → Nat
  | .CLIENTS => 2
  | .SERVER => 1
  | .PAILLIER => 1

/-- Concrete member tensor type for fixtures. -/
def tyW : TensorTy := ⟨"int32", [3]⟩

/-- Concrete client tensors. -/
def tW1 : Tensor := ⟨tyW, [1, 2, 3]⟩

/-- Concrete client tensors. -/
def tW2 : Tensor := ⟨tyW, [10, 20, 30]⟩

/-- A well-formed secure-sum argument over two clients. -/
def argW : SecureSumArg :=
  ⟨.tupleT [.federatedT (.tensorT tyW) .CLIENTS false, .tensorT ⟨"int32", []⟩],
    [.fed [tW1, tW2], .plain ⟨⟨"int32", []⟩, [64]⟩]⟩

/-- An argument that is not an anonymous tuple. -/
def badArgW : SecureSumArg := ⟨.tensorT tyW, []⟩

/-- A concrete keygen oracle (stands for the sodium keygen kernel). -/
def genW : Placement → Nat → Tensor × Tensor :=
  fun _ i =>
    (⟨⟨"uint8", [32]⟩, [Int.ofNat i]⟩, ⟨⟨"uint8", [32]⟩, [Int.ofNat i + 100]⟩)

/-- A grid holding one still-uninstantiated plaintext channel factory. -/
def gridW : ChannelGrid :=
  ⟨[((Placement.CLIENTS, Placement.SERVER), .factory .plaintext)], true⟩

/-- `gridW` after its first `setup_channels` run. -/
def gridW1 : ChannelGrid :=
  ⟨[((Placement.CLIENTS, Placement.SERVER),
      .live (.plaintextCh (Placement.CLIENTS, Placement.SERVER)))], false⟩

/-- A key store whose CLIENTS slot holds two public keys (all_equal=false)
and whose SERVER slot holds one broadcastable public key (all_equal=true). -/
def ksW : KeyStore :=
  { clients :=
      ⟨some ⟨[tW1, tW2], .federatedT (.tensorT tyW) .CLIENTS false⟩, none⟩,
    server :=
      ⟨some ⟨[tW1], .federatedT (.tensorT tyW) .SERVER true⟩, none⟩,
    paillier := .default }

end FedAgg

namespace FedAgg

/-- A well-typed federated key fixture. -/
def kW : FedKey := ⟨[tW1], .federatedT (.tensorT tyW) .SERVER true⟩

/-- A key fixture whose type signature is a bare tensor type (rejected by
the key store's type check). -/
def kBadW : FedKey := ⟨[tW1], .tensorT tyW⟩

/-- A target-executor map with a singleton Paillier placement. -/
def teW : TargetExecutors :=
  fun p => match p with
  | .PAILLIER => some 1
  | _ => some 2

theorem except_bind_ok {ε α β : Type} (a : α) (f : α → Except ε β) :
    (Except.ok a : Except ε α) >>= f = f a := rfl

theorem except_bind_error {ε α β : Type} (e : ε) (f : α → Except ε β) :
    (Except.error e : Except ε α) >>= f = .error e := rfl

theorem except_pure_bind {ε α β : Type} (a : α) (f : α → Except ε β) :
    (pure a : Except ε α) >>= f = f a := rfl

end FedAgg

namespace FedAgg

/-! ## Claim theorems -/

/-- C3 (counterexample): on a freshly constructed `KeyStore` whose
CLIENTS entry was never populated, `get_public_key`, `get_secret_key`
and `get_key_pair` do not fail with any error — the backing
`defaultdict` makes each of them return the Python-`None` default
values. -/
theorem keystore_fresh_read_counterexample :
    KeyStore.init.get_public_key Placement.CLIENTS = none ∧
    KeyStore.init.get_secret_key Placement.CLIENTS = none ∧
    KeyStore.init.get_key_pair Placement.CLIENTS = (none, none) :=
  ⟨rfl, rfl, rfl⟩

/-- C3 (amended): for every owner whose keys were never populated (its
slot is still the default), each getter returns the `None` defaults —
no `UnknownPlacement` (or any other) error is raised. -/
theorem keystore_unpopulated_reads_return_none (ks : KeyStore)
    (owner : Placement) (h : ks.get_keys owner = KeyEntry.default) :
    ks.get_public_key owner = none ∧ ks.get_secret_key owner = none ∧
    ks.get_key_pair owner = (none, none) := by
  simp [KeyStore.get_public_key, KeyStore.get_secret_key,
    KeyStore.get_key_pair, h, KeyEntry.default]

/-- C3 (witness). -/
theorem keystore_unpopulated_reads_return_none_witness :
    KeyStore.init.get_public_key Placement.CLIENTS = none ∧
    KeyStore.init.get_secret_key Placement.CLIENTS = none ∧
    KeyStore.init.get_key_pair Placement.CLIENTS = (none, none) :=
  keystore_unpopulated_reads_return_none KeyStore.init Placement.CLIENTS rfl

/-- C6: `update_keys` type-checks a supplied key (its type signature must
be a named-tuple or federated type), writes only the supplied field of
the owner's slot (the other field is carried over unchanged), errors on
an ill-typed key, and leaves every other owner's slot untouched. -/
theorem update_keys_typed_frame :
    (∀ k : FedKey,
      KeyStore.check_key_type k = .ok () ↔ key_type_ok k.typeSig = true) ∧
    (∀ (ks : KeyStore) (owner : Placement) (k : FedKey),
      key_type_ok k.typeSig = true →
      ks.update_keys owner (some k) none =
        .ok (ks.set_keys owner ⟨some k, (ks.get_keys owner).sk⟩)) ∧
    (∀ (ks : KeyStore) (owner : Placement) (k : FedKey),
      key_type_ok k.typeSig = true →
      ks.update_keys owner none (some k) =
        .ok (ks.set_keys owner ⟨(ks.get_keys owner).pk, some k⟩)) ∧
    (∀ (ks : KeyStore) (owner : Placement) (k : FedKey),
      key_type_ok k.typeSig = false →
      (∃ e, ks.update_keys owner (some k) none = .error e) ∧
      (∃ e, ks.update_keys owner none (some k) = .error e)) ∧
    (∀ (ks : KeyStore) (owner p : Placement) (e : KeyEntry), p ≠ owner →
      (ks.set_keys owner e).get_keys p = ks.get_keys p) := by
  refine ⟨?_, ?_, ?_, ?_, ?_⟩
  · intro ⟨ms, ts⟩
    cases ts <;> simp [KeyStore.check_key_type, key_type_ok]
  · intro ks owner ⟨ms, ts⟩ h
    cases ts <;>
      simp_all [KeyStore.update_keys, KeyStore.check_key_type, key_type_ok,
        except_bind_ok, except_bind_error]
  · intro ks owner ⟨ms, ts⟩ h
    cases ts <;>
      simp_all [KeyStore.update_keys, KeyStore.check_key_type, key_type_ok,
        except_bind_ok, except_bind_error]
  · intro ks owner ⟨ms, ts⟩ h
    cases ts <;>
      simp_all [KeyStore.update_keys, KeyStore.check_key_type, key_type_ok,
        except_bind_ok, except_bind_error]
  · intro ks owner p e h
    cases owner <;> cases p <;>
      first
        | exact absurd rfl h
        | simp [KeyStore.set_keys, KeyStore.get_keys]

/-- C6 (witness). -/
theorem update_keys_typed_frame_witness :
    (KeyStore.init.update_keys Placement.SERVER (some kW) none =
      .ok (KeyStore.init.set_keys Placement.SERVER
        ⟨some kW, (KeyStore.init.get_keys Placement.SERVER).sk⟩)) ∧
    (∃ e, KeyStore.init.update_keys Placement.SERVER (some kBadW) none =
      .error e) ∧
    ((KeyStore.init.set_keys Placement.SERVER ⟨some kW, none⟩).get_keys
        Placement.CLIENTS =
      KeyStore.init.get_keys Placement.CLIENTS) :=
  ⟨update_keys_typed_frame.2.1 KeyStore.init Placement.SERVER kW (by decide),
    (update_keys_typed_frame.2.2.2.1 KeyStore.init Placement.SERVER kBadW
      (by decide)).1,
    update_keys_typed_frame.2.2.2.2 KeyStore.init Placement.SERVER
      Placement.CLIENTS ⟨some kW, none⟩ (by decide)⟩

/-- C10: constructing a `PaillierAggregatingStrategy` succeeds exactly
when the Paillier aggregator placement is a key of the target-executor
map with exactly one child executor; any other map makes `__init__`
raise, so no strategy instance is produced. -/
theorem strategy_init_requires_singleton_paillier :
    ∀ te : TargetExecutors,
      ((∃ s, strategy_init te = .ok s) ↔ te Placement.PAILLIER = some 1) ∧
      (te Placement.PAILLIER ≠ some 1 →
        ∃ e, strategy_init te = .error e) := by
  intro te
  unfold strategy_init check_for_paillier_placement
  cases h : te Placement.PAILLIER with
  | none => simp [except_bind_error]
  | some n =>
      by_cases h1 : n = 1 <;>
        simp [h1, except_bind_ok, except_bind_error]

/-- C10 (witness). -/
theorem strategy_init_requires_singleton_paillier_witness :
    (∃ s, strategy_init teW = .ok s) ∧
    (∃ e, strategy_init (fun _ => none) = .error e) :=
  ⟨(strategy_init_requires_singleton_paillier teW).1.mpr rfl,
    (strategy_init_requires_singleton_paillier (fun _ => none)).2
      (by simp)⟩

end FedAgg

namespace FedAgg

/-- `sorted(...)` of a placement pair is order-independent (the three
placement literals have pairwise distinct uris). -/
theorem sortPair_comm : ∀ p q : Placement, sortPair (p, q) = sortPair (q, p) := by
  decide

/-- The canonicalized pair is one of the two orientations. -/
theorem sortPair_cases :
    ∀ p q : Placement, sortPair (p, q) = (p, q) ∨ sortPair (p, q) = (q, p) := by
  decide

/-- C7: `ChannelGrid.__getitem__` canonicalizes the queried pair, so
lookup is order-independent, and it returns `None` whenever no channel is
registered under either orientation of the unordered pair — on any grid
state, before or after `setup_channels`. -/
theorem grid_lookup_unordered :
    (∀ (g : ChannelGrid) (p1 p2 : Placement),
      g.getItem (p1, p2) = g.getItem (p2, p1)) ∧
    (∀ (g : ChannelGrid) (p1 p2 : Placement),
      (∀ e ∈ g.channel_dict, e.1 ≠ (p1, p2) ∧ e.1 ≠ (p2, p1)) →
      g.getItem (p1, p2) = none) := by
  constructor
  · intro g p1 p2
    unfold ChannelGrid.getItem
    rw [sortPair_comm]
  · intro g p1 p2 h
    unfold ChannelGrid.getItem
    rw [List.find?_eq_none.mpr]
    · rfl
    · intro e he
      simp only [decide_eq_true_eq]
      intro heq
      rcases sortPair_cases p1 p2 with hc | hc
      · rw [hc] at heq
        exact (h e he).1 heq
      · rw [hc] at heq
        exact (h e he).2 heq

/-- C7 (witness). -/
theorem grid_lookup_unordered_witness :
    gridW.getItem (Placement.CLIENTS, Placement.SERVER) =
      gridW.getItem (Placement.SERVER, Placement.CLIENTS) ∧
    gridW.getItem (Placement.CLIENTS, Placement.PAILLIER) = none :=
  ⟨grid_lookup_unordered.1 gridW Placement.CLIENTS Placement.SERVER,
    grid_lookup_unordered.2 gridW Placement.CLIENTS Placement.PAILLIER
      (by decide)⟩

/-- C5: a second `ChannelGrid.setup_channels` call after a completed
first call returns the grid unchanged (in particular every channel's
`KeyStore` contents are unchanged), and a second `EasyBoxChannel.setup`
(its per-channel `_requires_setup` flag already cleared) performs no key
generation or sharing. -/
theorem setup_channels_second_call_noop :
    (∀ (g g' : ChannelGrid) (card card' : Placement → Nat)
        (gen gen' : Placement → Nat → Tensor × Tensor),
      g.setup_channels card gen = .ok g' →
      g'.setup_channels card' gen' = .ok g') ∧
    (∀ (st : EasyBoxState) (card : Placement → Nat)
        (gen : Placement → Nat → Tensor × Tensor),
      st.requires_setup = false →
      channel_setup card gen (.easyBoxCh st) = .ok (.easyBoxCh st)) := by
  constructor
  · intro g g' card card' gen gen' h
    have hflag : g'.requires_setup = false := by
      unfold ChannelGrid.setup_channels at h
      by_cases hr : g.requires_setup = true
      · rw [if_pos hr] at h
        cases hm : g.channel_dict.mapM (fun e => do
            let pair := sortPair e.1
            match e.2 with
            | .factory kind => do
                let ch ← channel_setup card gen (instantiateChannel kind pair)
                pure (pair, GridEntry.live ch)
            | .live _ =>
                .error (.typeError "Channel object is not callable")) with
        | ok dict =>
            rw [hm, except_bind_ok] at h
            cases h
            rfl
        | error e => rw [hm, except_bind_error] at h; cases h
      · rw [if_neg hr] at h
        cases h
        exact Bool.not_eq_true _ |>.mp hr
    unfold ChannelGrid.setup_channels
    rw [if_neg (by rw [hflag]; exact Bool.false_ne_true)]
  · intro st card gen h
    simp [channel_setup, h]

/-- C5 (witness). -/
theorem setup_channels_second_call_noop_witness :
    gridW1.setup_channels cardW genW = .ok gridW1 ∧
    channel_setup cardW genW
        (.easyBoxCh ⟨(Placement.CLIENTS, Placement.SERVER), KeyStore.init,
          false⟩) =
      .ok (.easyBoxCh ⟨(Placement.CLIENTS, Placement.SERVER), KeyStore.init,
        false⟩) :=
  ⟨setup_channels_second_call_noop.1 gridW gridW1 cardW cardW genW genW
      (by rfl),
    setup_channels_second_call_noop.2
      ⟨(Placement.CLIENTS, Placement.SERVER), KeyStore.init, false⟩ cardW genW
      rfl⟩

end FedAgg

namespace FedAgg

/-- C4: key-sharing cardinality routing in
`EasyBoxChannel._share_public_key`.  A single (`all_equal`) key is
replicated to every receiver executor and stored tagged
`all_equal=true`; a list of n keys requires a singleton receiver and is
stored as an n-tuple federated value at the receiver (the source omits
the `all_equal` flag there, so it takes the receiver placement's
`default_all_equal` — true for SERVER and PAILLIER); a list of keys
with a receiver cardinality other than 1 fails the length check (the
failure the spec's taxonomy names `UnsupportedKeyTopology`) before any
key is distributed — the erroring call produces no updated store. -/
theorem share_public_key_routing :
    (∀ (card : Placement → Nat) (ks : KeyStore)
        (owner receiver q : Placement) (m : TffType) (k : Tensor)
        (kt : List Tensor),
      ks.get_public_key owner = some ⟨k :: kt, .federatedT m q true⟩ →
      share_public_key card ks owner receiver =
        .ok (ks.set_keys owner
          ⟨some ⟨List.replicate (card receiver) k,
              .federatedT m receiver true⟩,
            (ks.get_keys owner).sk⟩)) ∧
    (∀ (card : Placement → Nat) (ks : KeyStore)
        (owner receiver q : Placement) (m : TffType) (vs : List Tensor),
      ks.get_public_key owner = some ⟨vs, .federatedT m q false⟩ →
      card receiver = 1 →
      share_public_key card ks owner receiver =
        .ok (ks.set_keys owner
          ⟨some ⟨vs,
              .federatedT (.tupleT (vs.map fun t => .tensorT t.ty)) receiver
                receiver.default_all_equal⟩,
            (ks.get_keys owner).sk⟩)) ∧
    (∀ (card : Placement → Nat) (ks : KeyStore)
        (owner receiver q : Placement) (m : TffType) (vs : List Tensor),
      ks.get_public_key owner = some ⟨vs, .federatedT m q false⟩ →
      card receiver ≠ 1 →
      share_public_key card ks owner receiver =
        .error (.valueError "Expected an object with a given length.")) := by
  refine ⟨?_, ?_, ?_⟩
  · intro card ks owner receiver q m k kt h
    simp [share_public_key, h, FedKey.compute, TffType.member,
      KeyStore.update_keys, KeyStore.check_key_type, except_bind_ok,
      except_bind_error]
  · intro card ks owner receiver q m vs h hcard
    simp [share_public_key, h, FedKey.compute, TffType.member, check_len,
      hcard, KeyStore.update_keys, KeyStore.check_key_type, except_bind_ok,
      except_bind_error]
  · intro card ks owner receiver q m vs h hcard
    simp [share_public_key, h, FedKey.compute, TffType.member, check_len,
      hcard, except_bind_ok, except_bind_error]

/-- C4 (witness): on the fixture store, the SERVER slot's single
(`all_equal`) key is replicated to both CLIENTS executors; the CLIENTS
slot's two keys go to the singleton SERVER as a 2-tuple; and sharing the
CLIENTS slot's two keys with the two-executor CLIENTS placement errors. -/
theorem share_public_key_routing_witness :
    share_public_key cardW ksW Placement.SERVER Placement.CLIENTS =
      .ok (ksW.set_keys Placement.SERVER
        ⟨some ⟨List.replicate (cardW Placement.CLIENTS) tW1,
            .federatedT (.tensorT tyW) Placement.CLIENTS true⟩,
          (ksW.get_keys Placement.SERVER).sk⟩) ∧
    share_public_key cardW ksW Placement.CLIENTS Placement.SERVER =
      .ok (ksW.set_keys Placement.CLIENTS
        ⟨some ⟨[tW1, tW2],
            .federatedT
              (.tupleT ([tW1, tW2].map fun t => .tensorT t.ty))
              Placement.SERVER Placement.SERVER.default_all_equal⟩,
          (ksW.get_keys Placement.CLIENTS).sk⟩) ∧
    share_public_key cardW ksW Placement.CLIENTS Placement.CLIENTS =
      .error (.valueError "Expected an object with a given length.") :=
  ⟨share_public_key_routing.1 cardW ksW Placement.SERVER Placement.CLIENTS
      Placement.SERVER (.tensorT tyW) tW1 [] rfl,
    share_public_key_routing.2.1 cardW ksW Placement.CLIENTS Placement.SERVER
      Placement.CLIENTS (.tensorT tyW) [tW1, tW2] rfl rfl,
    share_public_key_routing.2.2 cardW ksW Placement.CLIENTS
      Placement.CLIENTS Placement.CLIENTS (.tensorT tyW) [tW1, tW2] rfl
      (by decide)⟩

end FedAgg

namespace FedAgg

/-- C2: for every nonempty list of ciphertexts under one key whose length
is one of 1, 2, 3, 5, 8, 17, the balanced binary recursive combiner
(`adder` splitting at `len // 2`, `do_refresh=False` at internal nodes)
followed by the single final `refresh` decrypts to the same plaintext as
a linear left fold of homomorphic additions, assuming the homomorphism
contract. -/
theorem sequence_sum_balanced_eq_left_fold {EK DK C : Type}
    (S : PaillierScheme EK DK C) (ek : EK) (dk : DK)
    (hc : SchemeContract S ek dk) (d : Dtype) (c0 : C) (rest : List C)
    (_hlen : (c0 :: rest).length ∈ ([1, 2, 3, 5, 8, 17] : List Nat)) :
    ∃ r, sequence_sum S ek (c0 :: rest) = .ok r ∧
      S.decrypt dk ek r d =
        S.decrypt dk ek (rest.foldl (S.add ek) c0) d := by
  obtain ⟨a, ha, had⟩ := adder_spec hc d (c0 :: rest) (List.cons_ne_nil c0 rest)
  refine ⟨S.refresh ek a, ?_, ?_⟩
  · unfold sequence_sum
    rw [ha]
  · rw [hc.decrypt_refresh, had, foldl_add_decrypt hc, List.map_cons,
      elementwiseSum_cons]

/-- C2 (witness): three concrete ciphertexts under the degenerate
scheme. -/
theorem sequence_sum_balanced_eq_left_fold_witness :
    (([tW1, tW2, tW1] : List Tensor).length ∈ ([1, 2, 3, 5, 8, 17] : List Nat)) ∧
    ∃ r, sequence_sum idScheme () [tW1, tW2, tW1] = .ok r ∧
      idScheme.decrypt () () r "int32" =
        idScheme.decrypt () () ([tW2, tW1].foldl (idScheme.add ()) tW1)
          "int32" :=
  ⟨by decide,
    sequence_sum_balanced_eq_left_fold idScheme () ()
      ⟨fun _ => rfl, fun _ _ _ => rfl, fun _ _ => rfl⟩ "int32" tW1 [tW2, tW1]
      (by decide)⟩

end FedAgg

namespace FedAgg

/-- C9: `compute_federated_secure_sum` never reads the bitwidth component
after the arity check — only index 0 of the argument tuple is selected —
so two runs on arguments that differ only in the bitwidth element (value
and type) produce identical results. -/
theorem secure_sum_independent_of_bitwidth {EK DK C : Type}
    (S : PaillierScheme EK DK C) (ek : EK) (dk : DK)
    (card : Placement → Nat) (vt bt bt' : TffType) (e0 b b' : ArgElem) :
    compute_federated_secure_sum S ek dk card ⟨.tupleT [vt, bt], [e0, b]⟩ =
      compute_federated_secure_sum S ek dk card
        ⟨.tupleT [vt, bt'], [e0, b']⟩ := by
  have hval : secure_sum_validate ⟨.tupleT [vt, bt], [e0, b]⟩ =
      secure_sum_validate ⟨.tupleT [vt, bt'], [e0, b']⟩ := rfl
  have hsel : select_value ⟨.tupleT [vt, bt], [e0, b]⟩ =
      select_value ⟨.tupleT [vt, bt'], [e0, b']⟩ := by
    cases e0 <;> cases vt <;> rfl
  simp only [compute_federated_secure_sum, hval, hsel]

/-- C8: the validation prefix of `compute_federated_secure_sum` accepts
exactly the arguments the spec describes (a two-element tuple whose
value component is federated at the data-holder placement with a tensor
member type), and on any rejected argument the whole call returns an
error — no partial result is surfaced (the `Except` result is all-or-
nothing). -/
theorem secure_sum_validation_gate :
    (∀ arg : SecureSumArg,
      (secure_sum_validate arg).isOk = true ↔ secure_sum_arg_ok arg = true) ∧
    (∀ (EK DK C : Type) (S : PaillierScheme EK DK C) (ek : EK) (dk : DK)
        (card : Placement → Nat) (arg : SecureSumArg),
      secure_sum_arg_ok arg = false →
      ∃ e, compute_federated_secure_sum S ek dk card arg = .error e) := by
  have hiff : ∀ arg : SecureSumArg,
      (secure_sum_validate arg).isOk = true ↔ secure_sum_arg_ok arg = true := by
    intro ⟨ts, il⟩
    cases ts with
    | tensorT ty =>
        simp [secure_sum_validate, check_arg_is_anonymous_tuple,
          secure_sum_arg_ok, except_bind_error, Except.isOk, Except.toBool]
    | federatedT m p ae =>
        simp [secure_sum_validate, check_arg_is_anonymous_tuple,
          secure_sum_arg_ok, except_bind_error, Except.isOk, Except.toBool]
    | tupleT elems =>
        by_cases hl : il.length = 2
        · cases elems with
          | nil =>
              simp [secure_sum_validate, check_arg_is_anonymous_tuple,
                check_len, hl, type_sig_elem, secure_sum_arg_ok,
                except_bind_ok, except_bind_error, Except.isOk, Except.toBool]
          | cons v rest =>
              cases v with
              | tensorT ty =>
                  simp [secure_sum_validate, check_arg_is_anonymous_tuple,
                    check_len, hl, type_sig_elem, check_federated_type,
                    secure_sum_arg_ok, except_bind_ok, except_bind_error,
                    Except.isOk, Except.toBool]
              | tupleT es =>
                  simp [secure_sum_validate, check_arg_is_anonymous_tuple,
                    check_len, hl, type_sig_elem, check_federated_type,
                    secure_sum_arg_ok, except_bind_ok, except_bind_error,
                    Except.isOk, Except.toBool]
              | federatedT m p ae =>
                  by_cases hp : p = Placement.CLIENTS
                  · cases m <;>
                      simp [secure_sum_validate, check_arg_is_anonymous_tuple,
                        check_len, hl, type_sig_elem, check_federated_type,
                        check_member_tensor, secure_sum_arg_ok, hp,
                        except_bind_ok, except_bind_error, Except.isOk,
                        Except.toBool]
                  · cases m <;>
                      simp [secure_sum_validate, check_arg_is_anonymous_tuple,
                        check_len, hl, type_sig_elem, check_federated_type,
                        check_member_tensor, secure_sum_arg_ok, hp,
                        except_bind_ok, except_bind_error, Except.isOk,
                        Except.toBool]
        · cases elems with
          | nil =>
              simp [secure_sum_validate, check_arg_is_anonymous_tuple,
                check_len, hl, secure_sum_arg_ok, except_bind_ok,
                except_bind_error, Except.isOk, Except.toBool]
          | cons v rest =>
              cases v with
              | federatedT m p ae =>
                  cases m <;>
                    simp [secure_sum_validate, check_arg_is_anonymous_tuple,
                      check_len, hl, secure_sum_arg_ok, except_bind_ok,
                      except_bind_error, Except.isOk, Except.toBool]
              | tensorT ty =>
                  simp [secure_sum_validate, check_arg_is_anonymous_tuple,
                    check_len, hl, secure_sum_arg_ok, except_bind_ok,
                    except_bind_error, Except.isOk, Except.toBool]
              | tupleT es =>
                  simp [secure_sum_validate, check_arg_is_anonymous_tuple,
                    check_len, hl, secure_sum_arg_ok, except_bind_ok,
                    except_bind_error, Except.isOk, Except.toBool]
  refine ⟨hiff, ?_⟩
  intro EK DK C S ek dk card arg h
  cases hv : secure_sum_validate arg with
  | ok m =>
      have : secure_sum_arg_ok arg = true :=
        (hiff arg).mp (by rw [hv]; rfl)
      rw [this] at h
      cases h
  | error e =>
      exact ⟨e, by
        simp only [compute_federated_secure_sum, hv, except_bind_error]⟩

/-- C8 (witness): the fixture argument passes validation; an argument
whose type signature is a bare tensor type makes the whole call error. -/
theorem secure_sum_validation_gate_witness :
    (secure_sum_validate argW).isOk = true ∧
    (∃ e, compute_federated_secure_sum idScheme () () cardW badArgW =
      .error e) :=
  ⟨(secure_sum_validation_gate.1 argW).mpr (by decide),
    secure_sum_validation_gate.2 Unit Unit Tensor idScheme () () cardW badArgW
      (by decide)⟩

end FedAgg

namespace FedAgg

/-- The common tail of the secure-sum pipeline: encrypt the (possibly
reshaped) client tensors, sum them homomorphically, decrypt at the
server and reshape to the requested output shape. -/
theorem secure_sum_pipeline_tail {EK DK C : Type}
    (S : PaillierScheme EK DK C) (ek : EK) (dk : DK)
    (card : Placement → Nat) (hc : SchemeContract S ek dk) (ty : TensorTy)
    (ae : Bool) (ms : List Tensor) (hne : ms ≠ [])
    (hcardc : card Placement.CLIENTS = ms.length)
    (hdty : ∀ t ∈ ms, t.ty.dtype = ty.dtype)
    (hserver : card Placement.SERVER = 1)
    (hpail : card Placement.PAILLIER = 1) :
    (do
      let encrypted_values ←
        compute_paillier_encryption S card
          (List.replicate (card Placement.CLIENTS) ek)
          ⟨ms, Placement.CLIENTS, ae⟩
      let encrypted_sum ← compute_paillier_sum S card ek encrypted_values
      let decrypted_result ←
        compute_paillier_decryption S card dk ek encrypted_sum ty.dtype
      compute_reshape_on_tensor card decrypted_result ty.shape :
        Except PyErr FedTensor) =
      .ok ⟨[reshape_tensor (elementwiseSum ms) ty.shape], Placement.SERVER,
        true⟩ := by
  have henc : compute_paillier_encryption S card
      (List.replicate (card Placement.CLIENTS) ek)
      ⟨ms, Placement.CLIENTS, ae⟩ = .ok (ms.map (S.encrypt ek)) := by
    simp [compute_paillier_encryption, check_len, hcardc,
      zipWith_replicate_eq_map, except_bind_ok]
  have hmapne : ms.map (S.encrypt ek) ≠ [] := by
    simpa using hne
  obtain ⟨a, ha, had⟩ := adder_spec hc ty.dtype (ms.map (S.encrypt ek)) hmapne
  have hsum : compute_paillier_sum S card ek (ms.map (S.encrypt ek)) =
      .ok (S.refresh ek a) := by
    simp [compute_paillier_sum, hpail, sequence_sum, ha]
  have hdeca : S.decrypt dk ek a ty.dtype = elementwiseSum ms := by
    rw [had, List.map_map]
    congr 1
    rw [List.map_congr_left, List.map_id]
    intro t ht
    simp only [Function.comp_apply]
    rw [← hdty t ht]
    exact hc.decrypt_encrypt t
  have hdec : compute_paillier_decryption S card dk ek (S.refresh ek a)
      ty.dtype = .ok ⟨[elementwiseSum ms], Placement.SERVER, true⟩ := by
    simp [compute_paillier_decryption, hserver, hc.decrypt_refresh, hdeca]
  have hresh : compute_reshape_on_tensor card
      ⟨[elementwiseSum ms], Placement.SERVER, true⟩ ty.shape =
      .ok ⟨[reshape_tensor (elementwiseSum ms) ty.shape], Placement.SERVER,
        true⟩ := by
    simp [compute_reshape_on_tensor, check_len, hserver, except_bind_ok,
      List.map]
  rw [henc, except_bind_ok, hsum, except_bind_ok, hdec, except_bind_ok,
    hresh]

end FedAgg

namespace FedAgg

/-- C1: for every nonempty list of data-holder tensors of one dtype and
shape, `compute_federated_secure_sum` returns a single cleartext tensor
placed at `tff.SERVER` with `all_equal=true`, equal to the elementwise
sum of all participants' inputs reshaped to the caller's original tensor
shape — assuming the Paillier primitives satisfy the homomorphism
contract. -/
theorem secure_sum_computes_elementwise_sum_at_server {EK DK C : Type}
    (S : PaillierScheme EK DK C) (ek : EK) (dk : DK)
    (card : Placement → Nat) (hc : SchemeContract S ek dk) (ty : TensorTy)
    (ae : Bool) (bwT : TffType) (bwE : ArgElem) (ts : List Tensor)
    (hne : ts ≠ []) (hcard : card Placement.CLIENTS = ts.length)
    (hty : ∀ t ∈ ts, t.ty = ty) (hserver : card Placement.SERVER = 1)
    (hpail : card Placement.PAILLIER = 1) :
    compute_federated_secure_sum S ek dk card
        ⟨.tupleT [.federatedT (.tensorT ty) Placement.CLIENTS ae, bwT],
          [.fed ts, bwE]⟩ =
      .ok ⟨[reshape_tensor (elementwiseSum ts) ty.shape], Placement.SERVER,
        true⟩ := by
  have hval : secure_sum_validate
      ⟨.tupleT [.federatedT (.tensorT ty) Placement.CLIENTS ae, bwT],
        [.fed ts, bwE]⟩ = .ok ty := rfl
  have hsel : select_value
      ⟨.tupleT [.federatedT (.tensorT ty) Placement.CLIENTS ae, bwT],
        [.fed ts, bwE]⟩ = .ok ⟨ts, Placement.CLIENTS, ae⟩ := rfl
  by_cases hsh : ty.shape.length = 2
  · -- already matrix-form: no initial reshape
    have hdty : ∀ t ∈ ts, t.ty.dtype = ty.dtype := by
      intro t ht; rw [hty t ht]
    simp only [compute_federated_secure_sum, hval, except_bind_ok, hsel]
    rw [if_neg (not_not_intro hsh), except_pure_bind]
    exact secure_sum_pipeline_tail S ek dk card hc ty ae ts hne hcard hdty
      hserver hpail
  · -- reshape every client tensor to [1, numel] first
    have hresh0 : compute_reshape_on_tensor card ⟨ts, Placement.CLIENTS, ae⟩
        [1, ty.shape.prod] =
        .ok ⟨ts.map (reshape_tensor · [1, ty.shape.prod]), Placement.CLIENTS,
          ae⟩ := by
      simp [compute_reshape_on_tensor, check_len, hcard, except_bind_ok]
    have hmne : ts.map (reshape_tensor · [1, ty.shape.prod]) ≠ [] := by
      simpa using hne
    have hmcard : card Placement.CLIENTS =
        (ts.map (reshape_tensor · [1, ty.shape.prod])).length := by
      rw [List.length_map]; exact hcard
    have hmdty : ∀ t ∈ ts.map (reshape_tensor · [1, ty.shape.prod]),
        t.ty.dtype = ty.dtype := by
      intro t ht
      rw [List.mem_map] at ht
      obtain ⟨u, hu, rfl⟩ := ht
      show u.ty.dtype = ty.dtype
      rw [hty u hu]
    obtain ⟨t0, ts', rfl⟩ := List.exists_cons_of_ne_nil hne
    have hfix : reshape_tensor
        (elementwiseSum
          ((t0 :: ts').map (reshape_tensor · [1, ty.shape.prod])))
        ty.shape = reshape_tensor (elementwiseSum (t0 :: ts')) ty.shape := by
      have h1 := elementwiseSum_data_map_reshape [1, ty.shape.prod]
        (t0 :: ts')
      have h2 : (elementwiseSum
          ((t0 :: ts').map (reshape_tensor · [1, ty.shape.prod]))).ty =
          (reshape_tensor t0 [1, ty.shape.prod]).ty := by
        rw [List.map_cons]
        exact elementwiseSum_ty _ _
      have h3 : (elementwiseSum (t0 :: ts')).ty = t0.ty :=
        elementwiseSum_ty t0 ts'
      simp only [reshape_tensor] at h1 h2 ⊢
      rw [h1, h2, h3]
    simp only [compute_federated_secure_sum, hval, except_bind_ok, hsel]
    rw [if_pos hsh, hresh0, except_bind_ok]
    rw [secure_sum_pipeline_tail S ek dk card hc ty ae _ hmne hmcard hmdty
      hserver hpail, hfix]

end FedAgg

namespace FedAgg

/-- C1 (witness): two clients holding `[1,2,3]` and `[10,20,30]` produce
the cleartext sum `[11,22,33]` at `tff.SERVER`, in the caller's original
shape. -/
theorem secure_sum_computes_elementwise_sum_at_server_witness :
    compute_federated_secure_sum idScheme () () cardW argW =
      .ok ⟨[⟨tyW, [11, 22, 33]⟩], Placement.SERVER, true⟩ :=
  secure_sum_computes_elementwise_sum_at_server idScheme () () cardW
    ⟨fun _ => rfl, fun _ _ _ => rfl, fun _ _ => rfl⟩ tyW false
    (.tensorT ⟨"int32", []⟩) (.plain ⟨⟨"int32", []⟩, [64]⟩) [tW1, tW2]
    (by decide) rfl (by decide) rfl rfl

end FedAgg
